import Mathlib

/-
  Verification of the aoc-env core: context resolution, the submission
  engine with its progress record, and the archive (bind) engine.

  The Python sources embedded here are `src/aoc/__init__.py` (functions
  `submit` and `bind`, and the module-level context determination) and
  `src/aoc/cli_commands/context.py` (command `context set`).  External
  collaborators (`_utils.*`: progress file, gateway, config, filesystem)
  are modelled as explicit inputs, and the side effects `submit` performs
  through them are recorded as an explicit event trace.
-/

namespace Aoc

/-- Whitespace characters: the ASCII range matched by the Python regex
class `\s` and stripped by `str.rstrip`. -/
def isWS (c : Char) : Bool :=
  c = ' ' || c = '\t' || c = '\n' || c = '\r' || c = '\x0b' || c = '\x0c'

/-- Remove trailing whitespace from a character list, as Python `str.rstrip`. -/
def rstrip (l : List Char) : List Char :=
  (l.reverse.dropWhile isWS).reverse

/-- Consume the literal `needle` from the front of a character list,
returning the remainder when it is present. -/
def dropLit : List Char → List Char → Option (List Char)
  | [], rest => some rest
  | _ :: _, [] => none
  | a :: as, b :: bs => if a = b then dropLit as bs else none

/-- Does the haystack contain the needle as a contiguous substring. -/
def containsSub (needle : List Char) : List Char → Bool
  | [] => (dropLit needle []).isSome
  | c :: rest => (dropLit needle (c :: rest)).isSome || containsSub needle rest

/-- Substring containment on strings: Python `needle in hay`. -/
def containsStr (hay needle : String) : Bool :=
  containsSub needle.data hay.data

/-- Split a character list at newline characters; always returns at least
one (possibly empty) line, as Python line structure under `re.MULTILINE`. -/
def splitNl : List Char → List (List Char)
  | [] => [[]]
  | c :: cs =>
    if c = '\n' then [] :: splitNl cs
    else
      match splitNl cs with
      | [] => [[c]]
      | l :: ls => (c :: l) :: ls

/-- Join lines with newline separators; inverse of `splitNl`. -/
def joinNl : List (List Char) → List Char
  | [] => []
  | [l] => l
  | l :: ls => l ++ '\n' :: joinNl ls

/-- The literal the archive filter looks for. -/
def bindLit : List Char := "aoc.bind".data

/-- Core of the archived-line filter, applied after trailing whitespace is
stripped: the regex `^\s*aoc\.bind\s*\(.*\)\s*$` matches a (newline-free)
line exactly when, after trailing whitespace is removed, the line is
optional whitespace, the literal `aoc.bind`, optional whitespace, an
opening parenthesis, and a tail whose last character is a closing
parenthesis. -/
def isBindCore (l : List Char) : Bool :=
  match dropLit bindLit (l.dropWhile isWS) with
  | none => false
  | some r =>
    match r.dropWhile isWS with
    | '(' :: body => body.getLast? == some ')'
    | _ => false

/-- A line matching the bind-call regex `^\s*aoc\.bind\s*\(.*\)\s*$`. -/
def isBindLine (l : List Char) : Bool := isBindCore (rstrip l)

/-- The cleaning performed by `bind` before archiving:
`re.sub(r"^\s*aoc\.bind\s*\(.*\)\s*$", "", content, flags=MULTILINE).rstrip()`,
modelled line by line (a matched line is replaced by the empty line).  The
Python `\s*` may additionally swallow newlines adjacent to a matched line,
merging neighbouring blank lines; this does not change which non-blank
lines survive, nor the final rstrip. -/
def cleanChars (content : List Char) : List Char :=
  rstrip (joinNl ((splitNl content).map fun ln => if isBindLine ln then [] else ln))

/-- String form of the archive cleaning step. -/
def cleanContent (content : String) : String :=
  String.mk (cleanChars content.data)

/-- Python `str` applied to the optional `AOC_TEST_OUTPUT` value:
`str(None)` is the string `"None"`. -/
def strOfOpt : Option String → String
  | none => "None"
  | some s => s

/-- Provider phrase recognised as a correct answer. -/
def rightPhrase : String := "That's the right answer!"

/-- Provider phrase recognised as a resubmission of a solved part. -/
def wrongLevelPhrase : String := "You don't seem to be solving the right level"

/-- Error string returned by `submit` for a part outside {1, 2}. -/
def invalidPartMsg : String := "The 'part' argument for submit() must be 1 or 2."

/-- Success message of the local already-solved verification. -/
def verifyOkMsg (a : String) : String :=
  "✅ Your answer '" ++ a ++ "' is correct!"

/-- Failure message of the local already-solved verification. -/
def verifyWrongMsg (a k : String) : String :=
  "❌ Your answer '" ++ a ++ "' is incorrect. The correct answer was '" ++ k ++ "'."

/-- Warning returned when the scrape yields no known answer. -/
def verifyWarnMsg : String :=
  "⚠️ Puzzle already completed, but could not verify answer against AoC website."

/-- Message for the server-side already-completed response. -/
def alreadyCompletedMsg (part : Int) : String :=
  "✅ Part " ++ toString part ++ " has already been completed. The server did not accept the new submission."

/-- Failure message of the test-mode comparison. -/
def testFailMsg (a se : String) : String :=
  "❌ FAILED: Got '" ++ a ++ "', but expected '" ++ se ++ "'"

/-- External collaborators of `submit`, fixed for one call: the process
environment (test mode), the Progress Store entry for the resolved
(year, day), the gateway, and the `auto_bind` config setting. -/
structure SubmitEnv where
  /-- `AOC_TEST_MODE == "true"` at process start. -/
  testMode : Bool
  /-- `AOC_TEST_OUTPUT` at process start; `none` when unset. -/
  testExpected : Option String
  /-- `progress_data["progress"][year_str].get(day_str)`: the raw stored
  star count for the resolved (year, day), `none` when absent. -/
  stored : Option Int
  /-- `_utils.scrape_day_page_for_answers(year, day).get(part)`. -/
  scraped : Int → Option String
  /-- `_utils.post_answer(year, day, part, answer)` response text. -/
  postResponse : String
  /-- `_utils.get_bool_config_setting("auto_bind", default=True)`. -/
  autoBind : Bool

/-- Side effects `submit` performs through its collaborators, in order. -/
inductive Ev
  /-- `_utils.read_progress_file()` -/
  | progressRead
  /-- `_utils.scrape_day_page_for_answers(year, day)` -/
  | scrapeCall
  /-- `_utils.post_answer(year, day, part, answer)` -/
  | postCall
  /-- `_utils.write_progress_file(...)` recording this star count -/
  | progressWrite (stars : Int)
  /-- `bind(part)` -/
  | bindCall (part : Int)
deriving DecidableEq, Repr

/-- Result of one `submit` call: the returned string and the ordered
trace of collaborator effects. -/
structure SubmitOut where
  message : String
  events : List Ev
deriving DecidableEq, Repr

/-- Embedding of `aoc.submit(answer, part)` (src/aoc/__init__.py, lines
73-173).  `answer` stands for `str(answer)`, the only view of the answer
the function's decisions use. -/
def submit (env : SubmitEnv) (answer : String) (part : Int) : SubmitOut :=
  if env.testMode then
    let se := strOfOpt env.testExpected
    if answer = se then ⟨"✅ PASSED", []⟩
    else ⟨testFailMsg answer se, []⟩
  else if part ≠ 1 ∧ part ≠ 2 then
    ⟨invalidPartMsg, []⟩
  else
    if env.stored.getD 0 ≥ part then
      match env.scraped part with
      | some known =>
        if answer = known then
          ⟨verifyOkMsg answer, [.progressRead, .scrapeCall]⟩
        else
          ⟨verifyWrongMsg answer known, [.progressRead, .scrapeCall]⟩
      | none => ⟨verifyWarnMsg, [.progressRead, .scrapeCall]⟩
    else
      if containsStr env.postResponse rightPhrase then
        ⟨"✅ " ++ env.postResponse,
          [.progressRead, .postCall, .progressWrite (max (env.stored.getD 0) part)] ++
            (if env.autoBind then [.bindCall part] else [])⟩
      else if containsStr env.postResponse wrongLevelPhrase then
        if env.stored = some (max (env.stored.getD 0) part) then
          ⟨alreadyCompletedMsg part, [.progressRead, .postCall]⟩
        else
          ⟨alreadyCompletedMsg part,
            [.progressRead, .postCall, .progressWrite (max (env.stored.getD 0) part)]⟩
      else
        ⟨"❌ " ++ env.postResponse, [.progressRead, .postCall]⟩

/-- Embedding of the module-level context determination
(src/aoc/__init__.py, lines 33-39): a persisted pair from the Context
Store wins verbatim; otherwise the Latest-Puzzle Oracle's value is used. -/
def resolveContext (stored : Option (Int × Int)) (latest : Int × Int) : Int × Int :=
  match stored with
  | some p => p
  | none => latest

/-- Outcome of `context set`: either the command aborts (no write), or
`_utils.write_context(year, day)` is performed with this pair. -/
inductive SetOutcome
  | aborted
  | written (year day : Int)
deriving DecidableEq, Repr

/-- Embedding of the `context set` command
(src/aoc/cli_commands/context.py, lines 15-40), given the Latest-Puzzle
Oracle's `(latest_year, latest_day)`. -/
def context_set (latest_year latest_day : Int) (year day : Int) : SetOutcome :=
  if ¬(2015 ≤ year ∧ year ≤ latest_year) then .aborted
  else if ¬(1 ≤ day ∧ day ≤ 25) then .aborted
  else if year = latest_year ∧ day > latest_day then .aborted
  else .written year day

/-- External collaborators and filesystem state seen by one `bind` call.
Fallible steps carry the exception message they would raise (`none` means
the step succeeds). -/
structure BindWorld where
  /-- Content of `notepad.py`; `none` when the file is missing. -/
  scratch : Option String
  /-- Existing content of the destination `part_<part>.py`; `none` when
  the file does not exist. -/
  destContent : Option String
  /-- `get_bool_config_setting("auto_format_on_bind", default=True)`. -/
  autoFormat : Bool
  /-- Result of `ruff format` on the scratch file: `some c` reformats it
  in place to `c`, `none` means the formatter fails (logged, the
  unformatted content is kept). -/
  fmtResult : Option String
  /-- Exception raised by `source_path.read_text()`, if any. -/
  readErr : Option String
  /-- Exception raised by `dest_path.write_text(...)`, if any. -/
  writeErr : Option String
  /-- `get_bool_config_setting("auto_commit_on_bind")`. -/
  autoCommit : Bool
  /-- Exception raised by `git_commit_solution(...)`, if any. -/
  commitErr : Option String
  /-- `get_bool_config_setting("auto_clear_on_bind")`. -/
  autoClear : Bool
  /-- Exception raised inside `clear()`, if any. -/
  clearErr : Option String

/-- How one `bind` call returns: always normally — an exception inside
the archive steps is caught and surfaces as `failed` with its message. -/
inductive BindOutcome
  | invalidPart
  | noScratch
  | alreadyExists
  | saved
  | failed (e : String)
deriving DecidableEq, Repr

/-- Result of one `bind` call: its outcome and the final contents of the
scratch file and of the destination file. -/
structure BindOut where
  outcome : BindOutcome
  scratch : Option String
  dest : Option String
deriving DecidableEq, Repr

/-- The `try` block of `bind` (src/aoc/__init__.py, lines 212-229) after
formatting: read the scratch content, clean it, write the destination,
optionally commit, optionally clear.  `content` is the scratch content
`read_text()` returns when it does not raise. -/
def bindTry (w : BindWorld) (content : String) : BindOut :=
  match w.readErr with
  | some e => ⟨.failed e, some content, w.destContent⟩
  | none =>
    match w.writeErr with
    | some e => ⟨.failed e, some content, w.destContent⟩
    | none =>
      match (if w.autoCommit then w.commitErr else none) with
      | some e => ⟨.failed e, some content, some (cleanContent content)⟩
      | none =>
        if w.autoClear then
          match w.clearErr with
          | some e => ⟨.failed e, some content, some (cleanContent content)⟩
          | none => ⟨.saved, some "", some (cleanContent content)⟩
        else ⟨.saved, some content, some (cleanContent content)⟩

/-- Scratch content after the optional in-place auto-format step of
`bind` (src/aoc/__init__.py, lines 197-203): on formatter failure the
original content is kept. -/
def scratchContent (w : BindWorld) (content0 : String) : String :=
  if w.autoFormat then w.fmtResult.getD content0 else content0

/-- Embedding of `aoc.bind(part, overwrite)` (src/aoc/__init__.py, lines
176-229): part validation, scratch existence, in-place auto-format,
overwrite guard, then the guarded archive steps. -/
def bind (w : BindWorld) (part : Int) (overwrite : Bool) : BindOut :=
  if part ≠ 1 ∧ part ≠ 2 then ⟨.invalidPart, w.scratch, w.destContent⟩
  else
    match w.scratch with
    | none => ⟨.noScratch, none, w.destContent⟩
    | some content0 =>
      if w.destContent.isSome ∧ overwrite = false then
        ⟨.alreadyExists, some (scratchContent w content0), w.destContent⟩
      else bindTry w (scratchContent w content0)

/-! Supporting lemmas about the character-level utilities. -/

theorem splitNl_ne_nil (l : List Char) : splitNl l ≠ [] := by
  induction l with
  | nil => simp [splitNl]
  | cons c cs ih =>
    by_cases h : c = '\n'
    · simp [splitNl, h]
    · simp only [splitNl, if_neg h]
      cases hcs : splitNl cs <;> simp

theorem noNl_of_mem_splitNl (l : List Char) :
    ∀ ln ∈ splitNl l, '\n' ∉ ln := by
  induction l with
  | nil =>
    intro ln hln
    simp [splitNl] at hln
    simp [hln]
  | cons c cs ih =>
    intro ln hln
    by_cases h : c = '\n'
    · simp only [splitNl, if_pos h, List.mem_cons] at hln
      rcases hln with rfl | hln
      · simp
      · exact ih ln hln
    · simp only [splitNl, if_neg h] at hln
      cases hcs : splitNl cs with
      | nil => exact absurd hcs (splitNl_ne_nil cs)
      | cons l0 ls =>
        rw [hcs] at hln
        rcases List.mem_cons.mp hln with rfl | hmem
        · intro hc
          rcases List.mem_cons.mp hc with rfl | hc0
          · exact h rfl
          · exact ih l0 (hcs ▸ List.mem_cons_self l0 ls) hc0
        · exact ih ln (hcs ▸ List.mem_cons_of_mem l0 hmem)

theorem chars_of_mem_splitNl (l : List Char) :
    ∀ ln ∈ splitNl l, ∀ a ∈ ln, a ∈ l := by
  induction l with
  | nil =>
    intro ln hln
    simp [splitNl] at hln
    simp [hln]
  | cons c cs ih =>
    intro ln hln a ha
    by_cases h : c = '\n'
    · simp only [splitNl, if_pos h, List.mem_cons] at hln
      rcases hln with rfl | hln
      · simp at ha
      · exact List.mem_cons_of_mem c (ih ln hln a ha)
    · simp only [splitNl, if_neg h] at hln
      cases hcs : splitNl cs with
      | nil => exact absurd hcs (splitNl_ne_nil cs)
      | cons l0 ls =>
        rw [hcs] at hln
        rcases List.mem_cons.mp hln with rfl | hmem
        · rcases List.mem_cons.mp ha with rfl | ha0
          · exact List.mem_cons_self a cs
          · exact List.mem_cons_of_mem c
              (ih l0 (hcs ▸ List.mem_cons_self l0 ls) a ha0)
        · exact List.mem_cons_of_mem c
            (ih ln (hcs ▸ List.mem_cons_of_mem l0 hmem) a ha)

theorem splitNl_decomp (a b : List Char) :
    ∃ as y ys bs,
      splitNl a = as ++ [y] ∧ splitNl b = ys :: bs ∧
      splitNl (a ++ b) = as ++ (y ++ ys) :: bs := by
  induction a with
  | nil =>
    cases hb : splitNl b with
    | nil => exact absurd hb (splitNl_ne_nil b)
    | cons ys bs =>
      exact ⟨[], [], ys, bs, by simp [splitNl], rfl, by simpa using hb⟩
  | cons c a' ih =>
    obtain ⟨as, y, ys, bs, h1, h2, h3⟩ := ih
    by_cases hc : c = '\n'
    · refine ⟨[] :: as, y, ys, bs, ?_, h2, ?_⟩
      · simp [splitNl, hc, h1]
      · simp [splitNl, hc, h3]
    · cases as with
      | nil =>
        refine ⟨[], c :: y, ys, bs, ?_, h2, ?_⟩
        · simp only [List.nil_append] at h1
          simp [splitNl, hc, h1]
        · simp only [List.nil_append] at h3
          simp [splitNl, hc, h3]
      | cons x as' =>
        refine ⟨(c :: x) :: as', y, ys, bs, ?_, h2, ?_⟩
        · simp only [List.cons_append] at h1
          simp [splitNl, hc, h1]
        · simp only [List.cons_append] at h3
          simp [splitNl, hc, h3]

theorem splitNl_noNl (l : List Char) (h : '\n' ∉ l) : splitNl l = [l] := by
  induction l with
  | nil => rfl
  | cons c cs ih =>
    have hc : c ≠ '\n' := fun hc => h (hc ▸ List.mem_cons_self c cs)
    have hcs : '\n' ∉ cs := fun hm => h (List.mem_cons_of_mem c hm)
    simp [splitNl, hc, ih hcs]

theorem splitNl_append_nl (l r : List Char) (h : '\n' ∉ l) :
    splitNl (l ++ '\n' :: r) = l :: splitNl r := by
  induction l with
  | nil => simp [splitNl]
  | cons c l' ih =>
    have hc : c ≠ '\n' := fun hc => h (hc ▸ List.mem_cons_self c l')
    have hl' : '\n' ∉ l' := fun hm => h (List.mem_cons_of_mem c hm)
    simp [splitNl, hc, ih hl']

theorem joinNl_roundtrip (L : List (List Char)) (hL : L ≠ [])
    (h : ∀ ln ∈ L, '\n' ∉ ln) : splitNl (joinNl L) = L := by
  induction L with
  | nil => exact absurd rfl hL
  | cons l L' ih =>
    cases L' with
    | nil => simpa [joinNl] using splitNl_noNl l (h l (List.mem_cons_self l []))
    | cons l' L'' =>
      have hstep : joinNl (l :: l' :: L'') = l ++ '\n' :: joinNl (l' :: L'') := rfl
      rw [hstep, splitNl_append_nl l _ (h l (List.mem_cons_self _ _)),
        ih (by simp) (fun x hx => h x (List.mem_cons_of_mem l hx))]

theorem dropWhile_append_all (p : Char → Bool) (a b : List Char)
    (h : ∀ c ∈ a, p c = true) :
    List.dropWhile p (a ++ b) = List.dropWhile p b := by
  induction a with
  | nil => rfl
  | cons c a' ih =>
    simp only [List.cons_append, List.dropWhile_cons,
      h c (List.mem_cons_self c a'), if_true]
    exact ih (fun x hx => h x (List.mem_cons_of_mem c hx))

theorem rstrip_append_ws (l u : List Char) (h : ∀ c ∈ u, isWS c = true) :
    rstrip (l ++ u) = rstrip l := by
  unfold rstrip
  rw [List.reverse_append,
    dropWhile_append_all isWS u.reverse l.reverse
      (fun c hc => h c (List.mem_reverse.mp hc))]

theorem rstrip_spec (l : List Char) :
    ∃ u, (∀ c ∈ u, isWS c = true) ∧ l = rstrip l ++ u := by
  refine ⟨(l.reverse.takeWhile isWS).reverse, ?_, ?_⟩
  · intro c hc
    exact List.mem_takeWhile_imp (List.mem_reverse.mp hc)
  · unfold rstrip
    rw [← List.reverse_append, List.takeWhile_append_dropWhile isWS l.reverse,
      List.reverse_reverse]

theorem isBindLine_append_ws (ln u : List Char) (h : ∀ c ∈ u, isWS c = true) :
    isBindLine (ln ++ u) = isBindLine ln := by
  unfold isBindLine
  rw [rstrip_append_ws ln u h]

theorem dropWhile_idem (p : Char → Bool) (l : List Char) :
    List.dropWhile p (List.dropWhile p l) = List.dropWhile p l := by
  induction l with
  | nil => rfl
  | cons c cs ih =>
    by_cases hc : p c = true
    · simp only [List.dropWhile_cons, hc, if_true]
      exact ih
    · simp only [List.dropWhile_cons, hc, if_false]
      simp [List.dropWhile_cons, hc]

theorem rstrip_idem (l : List Char) : rstrip (rstrip l) = rstrip l := by
  unfold rstrip
  rw [List.reverse_reverse, dropWhile_idem]

theorem isBindLine_nil : isBindLine [] = false := by decide

theorem cleanChars_no_bindLine (l : List Char) :
    ∀ ln ∈ splitNl (cleanChars l), isBindLine ln = false := by
  intro ln hln
  have hPne : (splitNl l).map (fun x => if isBindLine x then [] else x) ≠ [] := by
    simpa using splitNl_ne_nil l
  set P := (splitNl l).map (fun x => if isBindLine x then [] else x) with hP
  have hPnoNl : ∀ x ∈ P, '\n' ∉ x := by
    intro x hx
    rcases List.mem_map.mp hx with ⟨y, hy, rfl⟩
    by_cases hby : isBindLine y
    · simp [hby]
    · simpa [hby] using noNl_of_mem_splitNl l y hy
  have hPnb : ∀ x ∈ P, isBindLine x = false := by
    intro x hx
    rcases List.mem_map.mp hx with ⟨y, hy, rfl⟩
    by_cases hby : isBindLine y
    · simpa [hby] using isBindLine_nil
    · simp [hby]
  have hjoin : splitNl (joinNl P) = P := joinNl_roundtrip P hPne hPnoNl
  obtain ⟨u, hu, hdec⟩ := rstrip_spec (joinNl P)
  obtain ⟨as, y, ys, bs, h1, h2, h3⟩ := splitNl_decomp (rstrip (joinNl P)) u
  have hPeq : P = as ++ (y ++ ys) :: bs := by
    rw [← hjoin]
    conv_lhs => rw [hdec]
    exact h3
  have hclean : cleanChars l = rstrip (joinNl P) := rfl
  rw [hclean, h1] at hln
  rcases List.mem_append.mp hln with hmem | hmem
  · exact hPnb ln (hPeq ▸ List.mem_append_left _ hmem)
  · have hy : ln = y := by simpa using hmem
    subst hy
    have hysws : ∀ c ∈ ys, isWS c = true := by
      intro c hc
      exact hu c (chars_of_mem_splitNl u ys (h2 ▸ List.mem_cons_self ys bs) c hc)
    have hcat : isBindLine (ln ++ ys) = false :=
      hPnb (ln ++ ys) (hPeq ▸ List.mem_append_right _ (List.mem_cons_self _ _))
    rw [← isBindLine_append_ws ln ys hysws]
    exact hcat

theorem str_data_append (a b : String) : (a ++ b).data = a.data ++ b.data := rfl

theorem containsSub_append_left (n a b : List Char) (h : containsSub n b = true) :
    containsSub n (a ++ b) = true := by
  induction a with
  | nil => simpa using h
  | cons c a' ih =>
    simp only [List.cons_append, containsSub, Bool.or_eq_true]
    exact Or.inr ih

theorem dropLit_self_append (n t : List Char) : dropLit n (n ++ t) = some t := by
  induction n with
  | nil => rfl
  | cons c n' ih => simp [dropLit, ih]

theorem containsSub_self_append (n t : List Char) : containsSub n (n ++ t) = true := by
  cases n with
  | nil => cases t <;> simp [containsSub, dropLit]
  | cons c n' =>
    simp only [List.cons_append, containsSub, Bool.or_eq_true]
    left
    simp [dropLit, dropLit_self_append]

theorem containsStr_testFailMsg (a se : String) :
    containsStr (testFailMsg a se) se = true := by
  unfold containsStr testFailMsg
  simp only [str_data_append]
  rw [List.append_assoc _ se.data]
  exact containsSub_append_left _ _ _ (containsSub_self_append se.data _)

theorem testFailMsg_ne_passed (a se : String) : testFailMsg a se ≠ "✅ PASSED" := by
  intro h
  have hlen := congrArg String.length h
  rw [testFailMsg, String.length_append, String.length_append,
    String.length_append, String.length_append] at hlen
  have h1 : ("❌ FAILED: Got '" : String).length = 15 := by decide
  have h2 : ("', but expected '" : String).length = 17 := by decide
  have h3 : ("'" : String).length = 1 := by decide
  have h4 : ("✅ PASSED" : String).length = 8 := by decide
  rw [h1, h2, h3, h4] at hlen
  omega

/-! Claim theorems. -/

/-- C6: context resolution at process start uses a persisted (year, day)
pair verbatim, regardless of the Latest-Puzzle Oracle's value; with no
persisted pair it equals the oracle's latest (year, day). -/
theorem resolveContext_correct :
    ∀ (y d ly ld : Int),
      resolveContext (some (y, d)) (ly, ld) = (y, d) ∧
      resolveContext none (ly, ld) = (ly, ld) :=
  fun _ _ _ _ => ⟨rfl, rfl⟩

/-- C5: `context set` rejects `year < 2015`, `year > latest_year`, `day`
outside [1, 25], and `year = latest_year` with `day > latest_day`,
aborting with no write; every other in-range pair is written, and
subsequent resolution reflects it. -/
theorem context_set_correct (ly ld y d : Int) :
    (y < 2015 → context_set ly ld y d = .aborted) ∧
    (ly < y → context_set ly ld y d = .aborted) ∧
    (d < 1 ∨ 25 < d → context_set ly ld y d = .aborted) ∧
    (y = ly ∧ ld < d → context_set ly ld y d = .aborted) ∧
    (2015 ≤ y → y ≤ ly → 1 ≤ d → d ≤ 25 → ¬(y = ly ∧ ld < d) →
      context_set ly ld y d = .written y d ∧
      resolveContext (some (y, d)) (ly, ld) = (y, d)) := by
  refine ⟨?_, ?_, ?_, ?_, ?_⟩
  · intro h
    unfold context_set
    rw [if_pos (by omega)]
  · intro h
    unfold context_set
    rw [if_pos (by omega)]
  · intro h
    unfold context_set
    by_cases h1 : ¬(2015 ≤ y ∧ y ≤ ly)
    · rw [if_pos h1]
    · rw [if_neg h1, if_pos (by omega)]
  · intro h
    unfold context_set
    by_cases h1 : ¬(2015 ≤ y ∧ y ≤ ly)
    · rw [if_pos h1]
    · by_cases h2 : ¬(1 ≤ d ∧ d ≤ 25)
      · rw [if_neg h1, if_pos h2]
      · rw [if_neg h1, if_neg h2, if_pos h]
  · intro hy1 hy2 hd1 hd2 hlatest
    unfold context_set
    rw [if_neg (by omega), if_neg (by omega), if_neg hlatest]
    exact ⟨rfl, rfl⟩

/-- C5 witness: a concrete rejection and a concrete accepted write whose
resolution reflects the written pair. -/
theorem context_set_correct_witness :
    context_set 2025 10 2014 5 = .aborted ∧
    context_set 2025 10 2020 12 = .written 2020 12 ∧
    resolveContext (some ((2020 : Int), (12 : Int))) (2025, 10) = (2020, 12) := by
  have h1 := (context_set_correct 2025 10 2014 5).1 (by decide)
  have h2 := (context_set_correct 2025 10 2020 12).2.2.2.2
    (by decide) (by decide) (by decide) (by decide) (by decide)
  exact ⟨h1, h2.1, h2.2⟩

/-- C9: with Test Mode off and part outside {1, 2}, `submit` returns the
error string and performs no effect at all: no gateway call and no
Progress Store read or write. -/
theorem submit_invalid_part (env : SubmitEnv) (answer : String) (part : Int)
    (htm : env.testMode = false) (h1 : part ≠ 1) (h2 : part ≠ 2) :
    submit env answer part = ⟨invalidPartMsg, []⟩ := by
  simp [submit, htm, h1, h2]

/-- Concrete submission environment with Test Mode off and nothing stored. -/
def envOff : SubmitEnv := ⟨false, none, none, fun _ => none, "", true⟩

/-- C9 witness: part 3 is rejected with the error string and no effects. -/
theorem submit_invalid_part_witness :
    submit envOff "x" 3 = ⟨invalidPartMsg, []⟩ :=
  submit_invalid_part envOff "x" 3 rfl (by decide) (by decide)

theorem submit_test_mode_eq (env : SubmitEnv) (answer : String) (part : Int)
    (htm : env.testMode = true) :
    submit env answer part =
      if answer = strOfOpt env.testExpected then ⟨"✅ PASSED", []⟩
      else ⟨testFailMsg answer (strOfOpt env.testExpected), []⟩ := by
  simp only [submit, htm, if_true]

/-- C7: in Test Mode `submit` compares the stringified answer to the fixed
expected string with no state mutation and no network call; with expected
"42" and answer "42" it returns "✅ PASSED", and with answer "41" it
returns a failure string containing both "41" and "42". -/
theorem submit_test_mode (env : SubmitEnv) (answer : String) (part : Int)
    (htm : env.testMode = true) :
    (submit env answer part).events = [] ∧
    ((submit env answer part).message = "✅ PASSED" ↔
      answer = strOfOpt env.testExpected) ∧
    (env.testExpected = some "42" → answer = "42" →
      (submit env answer part).message = "✅ PASSED") ∧
    (env.testExpected = some "42" → answer = "41" →
      containsStr (submit env answer part).message "41" = true ∧
      containsStr (submit env answer part).message "42" = true) := by
  rw [submit_test_mode_eq env answer part htm]
  by_cases ha : answer = strOfOpt env.testExpected
  · rw [if_pos ha]
    refine ⟨rfl, ⟨fun _ => ha, fun _ => rfl⟩, fun _ _ => rfl, ?_⟩
    intro hex h41
    rw [hex] at ha
    rw [h41] at ha
    exact absurd ha (by decide)
  · rw [if_neg ha]
    refine ⟨rfl, ⟨fun h => absurd h (testFailMsg_ne_passed _ _), fun h => absurd h ha⟩,
      ?_, ?_⟩
    · intro hex h42
      rw [hex] at ha
      exact absurd h42 ha
    · intro hex h41
      rw [hex, h41]
      exact ⟨by decide, by decide⟩

/-- Concrete Test Mode environment with expected answer "42". -/
def envT42 : SubmitEnv := ⟨true, some "42", none, fun _ => none, "", true⟩

/-- C7 witness: the two concrete test-mode submissions of the claim. -/
theorem submit_test_mode_witness :
    (submit envT42 "42" 1).events = [] ∧
    (submit envT42 "42" 1).message = "✅ PASSED" ∧
    containsStr (submit envT42 "41" 1).message "41" = true ∧
    containsStr (submit envT42 "41" 1).message "42" = true := by
  have ha := submit_test_mode envT42 "42" 1 rfl
  have hb := submit_test_mode envT42 "41" 1 rfl
  exact ⟨ha.1, ha.2.2.1 rfl rfl, (hb.2.2.2 rfl rfl).1, (hb.2.2.2 rfl rfl).2⟩

/-- C10: in Test Mode with `AOC_TEST_OUTPUT` unset, `submit` compares the
stringified answer against the string "None": it returns "✅ PASSED"
exactly when the answer string is "None", and otherwise a FAILED string
mentioning "None", for every part value, with no effects. -/
theorem submit_test_mode_default (env : SubmitEnv) (answer : String) (part : Int)
    (htm : env.testMode = true) (hex : env.testExpected = none) :
    (submit env answer part).events = [] ∧
    ((submit env answer part).message = "✅ PASSED" ↔ answer = "None") ∧
    (answer ≠ "None" →
      (submit env answer part).message = testFailMsg answer "None" ∧
      containsStr (submit env answer part).message "None" = true) := by
  rw [submit_test_mode_eq env answer part htm, hex]
  by_cases ha : answer = "None"
  · rw [show strOfOpt none = "None" from rfl, if_pos ha]
    exact ⟨rfl, ⟨fun _ => ha, fun _ => rfl⟩, fun h => absurd ha h⟩
  · rw [show strOfOpt none = "None" from rfl, if_neg ha]
    refine ⟨rfl, ⟨fun h => absurd h (testFailMsg_ne_passed _ _), fun h => absurd h ha⟩,
      fun _ => ⟨rfl, containsStr_testFailMsg answer "None"⟩⟩

/-- Concrete Test Mode environment with `AOC_TEST_OUTPUT` unset. -/
def envTNone : SubmitEnv := ⟨true, none, none, fun _ => none, "", true⟩

/-- C10 witness: answer "None" passes, answer "41" fails mentioning "None". -/
theorem submit_test_mode_default_witness :
    (submit envTNone "None" 1).message = "✅ PASSED" ∧
    containsStr (submit envTNone "41" 2).message "None" = true := by
  have ha := submit_test_mode_default envTNone "None" 1 rfl rfl
  have hb := submit_test_mode_default envTNone "41" 2 rfl rfl
  exact ⟨ha.2.1.mpr rfl, (hb.2.2 (by decide)).2⟩

/-- C1: with Test Mode off and `stars_for ≥ part`, `submit` never calls the
gateway's post-answer and never writes the Progress Store (its only
effects are the progress read and the answer scrape), and the result is
determined by comparing the stringified answer to the gateway-scraped
known answer for that part: success exactly on a match, and a warning
when no known answer could be scraped. -/
theorem submit_already_solved (env : SubmitEnv) (answer : String) (part : Int)
    (htm : env.testMode = false) (hp : part = 1 ∨ part = 2)
    (hs : part ≤ env.stored.getD 0) :
    (submit env answer part).events = [Ev.progressRead, Ev.scrapeCall] ∧
    (∀ k, env.scraped part = some k →
      (submit env answer part).message =
        if answer = k then verifyOkMsg answer else verifyWrongMsg answer k) ∧
    (env.scraped part = none →
      (submit env answer part).message = verifyWarnMsg) := by
  have hnp : ¬(part ≠ 1 ∧ part ≠ 2) := by tauto
  have heq : submit env answer part =
      match env.scraped part with
      | some known =>
        if answer = known then
          (⟨verifyOkMsg answer, [.progressRead, .scrapeCall]⟩ : SubmitOut)
        else ⟨verifyWrongMsg answer known, [.progressRead, .scrapeCall]⟩
      | none => ⟨verifyWarnMsg, [.progressRead, .scrapeCall]⟩ := by
    simp [submit, htm, hnp, hs]
  refine ⟨?_, ?_, ?_⟩
  · rw [heq]
    cases h : env.scraped part
    · rfl
    · simp only []
      split <;> rfl
  · intro k hk
    rw [heq, hk]
    by_cases h : answer = k <;> simp [h]
  · intro hk
    rw [heq, hk]

/-- Concrete environment where part 1 is recorded as solved and the
scraped known answer for part 1 is "7". -/
def envSolved : SubmitEnv :=
  ⟨false, none, some 1, fun p => if p = 1 then some "7" else none, "", true⟩

/-- C1 witness: resubmitting the correct answer of an already-solved part
only reads progress and scrapes, and succeeds. -/
theorem submit_already_solved_witness :
    (submit envSolved "7" 1).events = [Ev.progressRead, Ev.scrapeCall] ∧
    (submit envSolved "7" 1).message = verifyOkMsg "7" := by
  have h := submit_already_solved envSolved "7" 1 rfl (Or.inl rfl) (by decide)
  refine ⟨h.1, ?_⟩
  have h2 := h.2.1 "7" (by decide)
  rw [if_pos rfl] at h2
  exact h2

theorem submit_live_eq (env : SubmitEnv) (answer : String) (part : Int)
    (htm : env.testMode = false) (hp : part = 1 ∨ part = 2)
    (hs : ¬env.stored.getD 0 ≥ part) :
    submit env answer part =
      if containsStr env.postResponse rightPhrase then
        ⟨"✅ " ++ env.postResponse,
          [.progressRead, .postCall, .progressWrite (max (env.stored.getD 0) part)] ++
            (if env.autoBind then [.bindCall part] else [])⟩
      else if containsStr env.postResponse wrongLevelPhrase then
        if env.stored = some (max (env.stored.getD 0) part) then
          ⟨alreadyCompletedMsg part, [.progressRead, .postCall]⟩
        else
          ⟨alreadyCompletedMsg part,
            [.progressRead, .postCall, .progressWrite (max (env.stored.getD 0) part)]⟩
      else ⟨"❌ " ++ env.postResponse, [.progressRead, .postCall]⟩ := by
  have hnp : ¬(part ≠ 1 ∧ part ≠ 2) := by tauto
  simp only [submit, htm, Bool.false_eq_true, if_false, hnp, hs, ite_false]

/-- C2: every Progress Store write performed by `submit` records exactly
`max(current, part)` with a valid part, so the recorded star count never
decreases; branches that do not appear in the event trace leave the store
unchanged. -/
theorem submit_star_monotone (env : SubmitEnv) (answer : String) (part : Int) :
    ∀ w : Int, Ev.progressWrite w ∈ (submit env answer part).events →
      env.stored.getD 0 ≤ w ∧ w = max (env.stored.getD 0) part ∧
      (part = 1 ∨ part = 2) := by
  intro w hw
  by_cases htm : env.testMode = true
  · rw [submit_test_mode_eq env answer part htm] at hw
    split at hw <;> simp at hw
  · rw [Bool.not_eq_true] at htm
    by_cases hp : part ≠ 1 ∧ part ≠ 2
    · rw [submit_invalid_part env answer part htm hp.1 hp.2] at hw
      simp at hw
    · have hpor : part = 1 ∨ part = 2 := by tauto
      by_cases hs : env.stored.getD 0 ≥ part
      · have h := submit_already_solved env answer part htm hpor hs
        rw [h.1] at hw
        simp at hw
      · rw [submit_live_eq env answer part htm hpor hs] at hw
        by_cases hr : containsStr env.postResponse rightPhrase = true
        · rw [if_pos hr] at hw
          by_cases hb : env.autoBind = true <;> simp [hb] at hw <;>
            · subst hw
              exact ⟨le_max_left _ _, rfl, hpor⟩
        · rw [if_neg hr] at hw
          by_cases hwl : containsStr env.postResponse wrongLevelPhrase = true
          · rw [if_pos hwl] at hw
            by_cases hst : env.stored = some (max (env.stored.getD 0) part)
            · rw [if_pos hst] at hw
              simp at hw
            · rw [if_neg hst] at hw
              simp at hw
              subst hw
              exact ⟨le_max_left _ _, rfl, hpor⟩
          · rw [if_neg hwl] at hw
            simp at hw

/-- Concrete environment for a correct live submission: nothing recorded
yet, gateway answers with the correct-answer phrase. -/
def envRight : SubmitEnv :=
  ⟨false, none, none, fun _ => none, "That's the right answer!", true⟩

/-- C2 witness: the write performed by a concrete correct submission
records `max(current, part)` and does not decrease the count. -/
theorem submit_star_monotone_witness :
    envRight.stored.getD 0 ≤ 1 ∧ (1 : Int) = max (envRight.stored.getD 0) 1 ∧
      ((1 : Int) = 1 ∨ (1 : Int) = 2) :=
  submit_star_monotone envRight "8" 1 1 (by decide)

/-- Environment whose gateway response contains both the correct-answer
phrase and the already-completed phrase; the correct-answer check runs
first. -/
def envBoth : SubmitEnv :=
  ⟨false, none, none, fun _ => none,
    "That's the right answer! You don't seem to be solving the right level", true⟩

/-- C3 counterexample: a response containing "You don't seem to be solving
the right level" (here together with the correct-answer phrase) on which
`submit` does invoke the Archive Engine and does not report the part as
already completed, because the correct-answer check matches first. -/
theorem submit_wrong_level_cex :
    containsStr envBoth.postResponse wrongLevelPhrase = true ∧
    envBoth.stored.getD 0 < 1 ∧
    Ev.bindCall 1 ∈ (submit envBoth "8" 1).events ∧
    (submit envBoth "8" 1).message = "✅ " ++ envBoth.postResponse := by
  refine ⟨by decide, by decide, by decide, by decide⟩

/-- C3 (amended): if additionally the response does not contain the
correct-answer phrase, then `submit` updates the entry to
`max(current, part)` and persists exactly once, does not invoke the
Archive Engine, and reports the part as already completed. -/
theorem submit_wrong_level (env : SubmitEnv) (answer : String) (part : Int)
    (htm : env.testMode = false) (hp : part = 1 ∨ part = 2)
    (hs : env.stored.getD 0 < part)
    (hwl : containsStr env.postResponse wrongLevelPhrase = true)
    (hnr : containsStr env.postResponse rightPhrase = false) :
    submit env answer part =
      ⟨alreadyCompletedMsg part,
        [Ev.progressRead, Ev.postCall,
          Ev.progressWrite (max (env.stored.getD 0) part)]⟩ := by
  have hns : ¬env.stored.getD 0 ≥ part := not_le.mpr hs
  have hstored : ¬(env.stored = some (max (env.stored.getD 0) part)) := by
    cases hso : env.stored with
    | none => simp
    | some v =>
      rw [hso] at hs
      simp only [Option.getD_some] at hs ⊢
      intro h
      rw [Option.some_inj] at h
      have h2 := le_max_right v part
      rw [← h] at h2
      omega
  rw [submit_live_eq env answer part htm hp hns, if_neg (by simp [hnr]),
    if_pos hwl, if_neg hstored]

/-- Environment with one star recorded while the server already credits
part 2: the gateway answers with the already-completed phrase alone. -/
def envWL : SubmitEnv :=
  ⟨false, none, some 1, fun _ => none,
    "You don't seem to be solving the right level", true⟩

/-- C3 witness: the amended claim at a concrete stale-record submission. -/
theorem submit_wrong_level_witness :
    submit envWL "8" 2 =
      ⟨alreadyCompletedMsg 2,
        [Ev.progressRead, Ev.postCall,
          Ev.progressWrite (max (envWL.stored.getD 0) 2)]⟩ :=
  submit_wrong_level envWL "8" 2 rfl (Or.inr rfl) (by decide) (by decide) (by decide)

/-- C4: on a correct live submission the Progress Store write appears in
the effect trace before any Archive Engine invocation, and once `bind`
reaches its archive steps every exception (reading the scratch, writing
the destination, committing, clearing) is caught: the call returns
normally with either `saved` or a logged `failed` outcome, so an archive
failure can never undo the already-persisted star update. -/
theorem submit_correct_persist_then_bind (env : SubmitEnv) (answer : String)
    (part : Int) (htm : env.testMode = false) (hp : part = 1 ∨ part = 2)
    (hs : env.stored.getD 0 < part)
    (hr : containsStr env.postResponse rightPhrase = true) :
    (submit env answer part).events =
      [Ev.progressRead, Ev.postCall,
        Ev.progressWrite (max (env.stored.getD 0) part)] ++
        (if env.autoBind then [Ev.bindCall part] else []) ∧
    (∀ (w : BindWorld) (ov : Bool), w.scratch.isSome = true →
      ¬(w.destContent.isSome ∧ ov = false) →
      (bind w part ov).outcome = .saved ∨
        ∃ e, (bind w part ov).outcome = .failed e) := by
  have hns : ¬env.stored.getD 0 ≥ part := not_le.mpr hs
  constructor
  · rw [submit_live_eq env answer part htm hp hns, if_pos hr]
  · intro w ov hsc hdo
    have hnp : ¬(part ≠ 1 ∧ part ≠ 2) := by tauto
    obtain ⟨c0, hc0⟩ := Option.isSome_iff_exists.mp hsc
    rw [bind, if_neg hnp, hc0]
    simp only [if_neg hdo]
    unfold bindTry
    repeat' first
      | exact Or.inl rfl
      | exact Or.inr ⟨_, rfl⟩
      | split

/-- World whose scratch read raises: the archive steps fail and the
failure is caught. -/
def wReadFail : BindWorld :=
  ⟨some "c", none, false, none, some "boom", none, false, none, false, none⟩

/-- C4 witness: a concrete correct submission's trace, and a concrete
archive world whose exception is caught. -/
theorem submit_correct_persist_then_bind_witness :
    (submit envRight "8" 1).events =
      [Ev.progressRead, Ev.postCall,
        Ev.progressWrite (max (envRight.stored.getD 0) 1)] ++
        (if envRight.autoBind then [Ev.bindCall 1] else []) ∧
    ((bind wReadFail 1 false).outcome = .saved ∨
      ∃ e, (bind wReadFail 1 false).outcome = .failed e) := by
  have h := submit_correct_persist_then_bind envRight "8" 1 rfl (Or.inl rfl)
    (by decide) (by decide)
  exact ⟨h.1, h.2 wReadFail false (by decide) (by decide)⟩

/-- C8: `bind` with an existing destination and overwrite off returns
without writing, leaving the archived content unchanged; with overwrite
on (and read and write succeeding) it replaces the destination with the
cleaned scratch content; and in every cleaned content no line is a pure
`aoc.bind(...)` call and trailing whitespace is trimmed. -/
theorem bind_archive (w : BindWorld) (part : Int) (content0 : String)
    (hp : part = 1 ∨ part = 2) (hsc : w.scratch = some content0) :
    (∀ d, w.destContent = some d →
      bind w part false =
        ⟨.alreadyExists, some (scratchContent w content0), some d⟩) ∧
    (w.readErr = none → w.writeErr = none →
      (bind w part true).dest = some (cleanContent (scratchContent w content0))) ∧
    (∀ c : String, ∀ ln ∈ splitNl (cleanContent c).data, isBindLine ln = false) ∧
    (∀ c : String, rstrip (cleanContent c).data = (cleanContent c).data) := by
  have hnp : ¬(part ≠ 1 ∧ part ≠ 2) := by tauto
  refine ⟨?_, ?_, ?_, ?_⟩
  · intro d hd
    rw [bind, if_neg hnp, hsc]
    simp [hd]
  · intro hre hwe
    rw [bind, if_neg hnp, hsc]
    simp only [Bool.true_eq_false, and_false, if_false]
    unfold bindTry
    rw [hre, hwe]
    repeat' first
      | rfl
      | split
      | simp_all
  · intro c ln hln
    exact cleanChars_no_bindLine c.data ln hln
  · intro c
    exact rstrip_idem (joinNl ((splitNl c.data).map fun ln =>
      if isBindLine ln then [] else ln))

/-- World with an already-archived destination and a scratch containing a
pure `aoc.bind(...)` line. -/
def wAr : BindWorld :=
  ⟨some "x = 1\naoc.bind(1)\n", some "old", false, none, none, none,
    false, none, false, none⟩

/-- C8 witness: no overwrite keeps the archived content; overwrite
replaces it with the cleaned scratch; the bind line is gone. -/
theorem bind_archive_witness :
    bind wAr 1 false =
      ⟨.alreadyExists, some (scratchContent wAr "x = 1\naoc.bind(1)\n"),
        some "old"⟩ ∧
    (bind wAr 1 true).dest =
      some (cleanContent (scratchContent wAr "x = 1\naoc.bind(1)\n")) ∧
    isBindLine [] = false := by
  have h := bind_archive wAr 1 "x = 1\naoc.bind(1)\n" (Or.inl rfl) rfl
  exact ⟨h.1 "old" rfl, h.2.1 rfl rfl,
    h.2.2.1 "aoc.bind(1)" [] (by decide)⟩

end Aoc
